import Mathlib

/-!
Verification development for the XML record/replay device-connection framework
in `oscar/SleepLib/deviceconnection.cpp`.

The C++ code is shallowly embedded: each relevant C++ function becomes an
executable Lean definition operating on explicit state.  Qt container and
string behavior is modelled faithfully where the claims depend on it:

* `QHash<QString,QString>` becomes a canonical association list updated in
  place (`hashSet`), with lookup returning the default-constructed empty
  string for a missing key, matching `QHash::operator[] const`.
* `QString::split(" ")` (default `KeepEmptyParts`) becomes `qSplitSpace`,
  which, like Qt, returns a single empty token for the empty string.
* `QStringList::join(' ')` becomes `joinSpace`.
* `QString::toShort(&ok, 16)` / `QString::toLong(&ok)` become `qToShortHex` /
  `qToLong`, returning `(0, false)` on empty or malformed input as Qt does.
* `QString::number(qint64)` becomes `qNumber` (decimal rendering).
* Event timestamps (`QDateTime`) are abstracted to a `Nat` tick; the ISO-8601
  rendering is abstracted to an injective decimal rendering (`timeStr`).
  Nothing in the claims depends on the concrete timestamp format.
* Heap pointers to parsed events (`XmlReplayEvent*`) are modelled as positions
  (indices) into the chronological event list `m_events`, which preserves
  pointer identity exactly: two parsed events are the same object iff they sit
  at the same position.

Machine integers (`qint64`, `qint16`) are modelled as `Int`; the operations
involved (lengths, enum values, two-digit hex bytes) never approach the
overflow boundaries, and the `(char)` narrowing cast in `getData` is modelled
explicitly by reduction mod 256.
-/

-- MARK: Qt string primitives

/-- Uppercase hexadecimal digit, modelling the result of
QString::arg(..., 16, ...).toUpper() for a single digit value. -/
def hexDigitU : Nat → Char
  | 0 => '0' | 1 => '1' | 2 => '2' | 3 => '3' | 4 => '4' | 5 => '5'
  | 6 => '6' | 7 => '7' | 8 => '8' | 9 => '9' | 10 => 'A' | 11 => 'B'
  | 12 => 'C' | 13 => 'D' | 14 => 'E' | _ => 'F'

/-- Numeric value of a hexadecimal digit character (either case), as accepted
by QString::toShort with base 16; `none` for a non-digit. -/
def hexVal (c : Char) : Option Nat :=
  if c.isDigit then
    some (c.toNat - 48)
  else if c.toNat ≥ 65 ∧ c.toNat ≤ 70 then
    some (c.toNat - 55)
  else if c.toNat ≥ 97 ∧ c.toNat ≤ 102 then
    some (c.toNat - 87)
  else
    none

/-- Accumulate hexadecimal digits; fails on the first invalid character. -/
def parseHexAux : List Char → Nat → Option Nat
  | [], acc => some acc
  | c :: cs, acc =>
    match hexVal c with
    | some d => parseHexAux cs (acc * 16 + d)
    | none => none

/-- Parse a nonempty run of hexadecimal digits; the empty list fails, as the
empty string fails in QString::toShort. -/
def parseHexDigits : List Char → Option Nat
  | [] => none
  | cs => parseHexAux cs 0

/-- Model of QString::toShort(&ok, 16): value and ok flag.  Returns (0, false)
for empty or malformed input or a value out of qint16 range. -/
def qToShortHex (s : String) : Int × Bool :=
  match s.data with
  | '-' :: rest =>
    match parseHexDigits rest with
    | some v => if v ≤ 32768 then (-(v : Int), true) else (0, false)
    | none => (0, false)
  | '+' :: rest =>
    match parseHexDigits rest with
    | some v => if v ≤ 32767 then ((v : Int), true) else (0, false)
    | none => (0, false)
  | cs =>
    match parseHexDigits cs with
    | some v => if v ≤ 32767 then ((v : Int), true) else (0, false)
    | none => (0, false)

/-- Numeric value of a decimal digit character; `none` for a non-digit. -/
def decVal (c : Char) : Option Nat :=
  if '0' ≤ c ∧ c ≤ '9' then some (c.toNat - '0'.toNat) else none

/-- Accumulate decimal digits; fails on the first invalid character. -/
def parseDecAux : List Char → Nat → Option Nat
  | [], acc => some acc
  | c :: cs, acc =>
    match decVal c with
    | some d => parseDecAux cs (acc * 10 + d)
    | none => none

/-- Parse a nonempty run of decimal digits. -/
def parseDecDigits : List Char → Option Nat
  | [] => none
  | cs => parseDecAux cs 0

/-- Model of QString::toLong(&ok): decimal parse with sign, (0, false) on
empty or malformed input or a value out of qint64 range. -/
def qToLong (s : String) : Int × Bool :=
  match s.data with
  | '-' :: rest =>
    match parseDecDigits rest with
    | some v => if v ≤ 9223372036854775808 then (-(v : Int), true) else (0, false)
    | none => (0, false)
  | '+' :: rest =>
    match parseDecDigits rest with
    | some v => if v ≤ 9223372036854775807 then ((v : Int), true) else (0, false)
    | none => (0, false)
  | cs =>
    match parseDecDigits cs with
    | some v => if v ≤ 9223372036854775807 then ((v : Int), true) else (0, false)
    | none => (0, false)

/-- Model of QString::number(qint64): decimal rendering with sign. -/
def qNumber (v : Int) : String := toString v

/-- Abstract rendering of the event timestamp; stands in for the ISO-8601
rendering in operator<<, which no claim depends on beyond injectivity. -/
def timeStr (t : Nat) : String := toString t

/-- Split a character list at every space, keeping empty parts, exactly as
QString::split(" ") with the default KeepEmptyParts does.  In particular the
empty input yields one empty part, as in Qt. -/
def splitCharsAux : List Char → List Char → List (List Char)
  | [], acc => [acc.reverse]
  | c :: rest, acc =>
    if c = ' ' then acc.reverse :: splitCharsAux rest []
    else splitCharsAux rest (c :: acc)

/-- Model of QString::split(" ") with KeepEmptyParts. -/
def qSplitSpace (s : String) : List String :=
  (splitCharsAux s.data []).map (fun l => ⟨l⟩)

/-- Join character lists with single spaces (QStringList::join(QChar(' '))). -/
def joinSpaceChars : List (List Char) → List Char
  | [] => []
  | [x] => x
  | x :: y :: rest => x ++ ' ' :: joinSpaceChars (y :: rest)

/-- Model of QStringList::join(QChar(' ')). -/
def joinSpace (l : List String) : String :=
  ⟨joinSpaceChars (l.map String.data)⟩

-- MARK: QHash / association list primitives

/-- Lookup in a QHash modelled as an association list; returns the
default-constructed empty string for a missing key. -/
def hashGet (h : List (String × String)) (k : String) : String :=
  match h with
  | [] => ""
  | p :: rest => if p.1 = k then p.2 else hashGet rest k

/-- In-place update or append, modelling QHash::operator[] assignment. -/
def hashSet (h : List (String × String)) (k v : String) : List (String × String) :=
  match h with
  | [] => [(k, v)]
  | p :: rest => if p.1 = k then (k, v) :: rest else p :: hashSet rest k v

/-- Key membership, modelling QHash::contains. -/
def hashContainsKey (h : List (String × String)) (k : String) : Bool :=
  match h with
  | [] => false
  | p :: rest => p.1 = k || hashContainsKey rest k

/-- Generic association-list lookup (QHash::value / operator[] const). -/
def assocGet? {α : Type} (h : List (String × α)) (k : String) : Option α :=
  match h with
  | [] => none
  | p :: rest => if p.1 = k then some p.2 else assocGet? rest k

/-- Generic key membership (QHash::contains). -/
def assocContains {α : Type} (h : List (String × α)) (k : String) : Bool :=
  match h with
  | [] => false
  | p :: rest => p.1 = k || assocContains rest k

/-- Update the value stored under a key in place, inserting a default-derived
value at the end when the key is absent, modelling mutation through
QHash::operator[] on a missing key (which default-constructs the entry). -/
def assocUpdate {α : Type} (h : List (String × α)) (k : String) (f : α → α)
    (dflt : α) : List (String × α) :=
  match h with
  | [] => [(k, f dflt)]
  | p :: rest => if p.1 = k then (p.1, f p.2) :: rest else p :: assocUpdate rest k f dflt

-- MARK: Wire format

/-- One serialized event element: tag, attributes in written order (the
"time" attribute first, as operator<< writes it), optional text content
(the hex payload), and child elements.  The only child elements this program
ever writes or reads are the serial-port descriptors nested inside a
getAvailableSerialPorts element, so children are modelled directly as their
attribute lists. -/
structure WireElement where
  tag : String
  attrs : List (String × String)
  text : String
  children : List (List (String × String))
deriving Repr, DecidableEq, Inhabited

-- MARK: XmlReplayEvent

/-- Model of XmlReplayEvent.  The virtual dispatch of the C++ class hierarchy
is modelled by data: the discriminator string (the virtual tag()), the
usesData capability flag of the variant, and for the port-enumeration variant
its ports payload.  m_next is not modelled; the chronological chain is the
order of the parsed event list. -/
structure XmlReplayEvent where
  tag : String
  usesData : Bool
  time : Nat
  values : List (String × String)
  keys : List String
  data : String
  ports : List (List (String × String))
deriving Repr, DecidableEq, Inhabited

namespace XmlReplayEvent

/-- XmlReplayEvent::set(name, value): last write wins in m_values, and the
key is appended to m_keys on every call. -/
def set (e : XmlReplayEvent) (name value : String) : XmlReplayEvent :=
  { e with values := hashSet e.values name value, keys := e.keys ++ [name] }

/-- XmlReplayEvent::set(name, qint64 value). -/
def setInt (e : XmlReplayEvent) (name : String) (value : Int) : XmlReplayEvent :=
  e.set name (qNumber value)

/-- XmlReplayEvent::setData: each byte is rendered as two uppercase hex
digits and the byte strings are joined with single spaces.  The (unsigned
char) cast is the reduction mod 256. -/
def setData (e : XmlReplayEvent) (bytes : List Nat) : XmlReplayEvent :=
  { e with data := joinSpace (bytes.map (fun b =>
      ⟨[hexDigitU (b % 256 / 16), hexDigitU (b % 256 % 16)]⟩)) }

/-- XmlReplayEvent::get: QHash lookup, empty string when missing (the
qWarning is not modelled). -/
def get (e : XmlReplayEvent) (name : String) : String :=
  hashGet e.values name

/-- XmlReplayEvent::getData: split the stored string at spaces, parse each
token with toShort base 16 appending the (char)-narrowed byte even when the
parse fails (Qt returns 0 then), exactly as the loop does. -/
def getData (e : XmlReplayEvent) : List Nat :=
  (qSplitSpace e.data).map (fun b => ((qToShortHex b).1 % 256).toNat)

/-- XmlReplayEvent::ok(): success is the absence of an "error" attribute. -/
def ok (e : XmlReplayEvent) : Bool :=
  hashContainsKey e.values "error" = false

/-- XmlReplayEvent::copyIf: a null replay event leaves the proposed event
alone; otherwise attributes, key order and payload are copied and the
timestamp is not. -/
def copyIf (e : XmlReplayEvent) (other : Option XmlReplayEvent) : XmlReplayEvent :=
  match other with
  | none => e
  | some o => { e with values := o.values, keys := o.keys, data := o.data }

/-- The per-variant virtual id(): set/get use the first attribute key,
open/close use the "name" attribute, tx uses the payload string, every other
variant uses the empty string (the base implementation).  QList::first on an
empty list is modelled as the empty string. -/
def eventId (e : XmlReplayEvent) : String :=
  if e.tag = "set" ∨ e.tag = "get" then e.keys.headD ""
  else if e.tag = "openConnection" ∨ e.tag = "closeConnection" then hashGet e.values "name"
  else if e.tag = "tx" then e.data
  else ""

/-- operator<< plus the virtual write(): the element is named by the tag, the
timestamp attribute comes first, then the ordered attribute list (each key in
m_keys with its current m_values entry), then the payload text.  The
port-enumeration variant overrides write() to emit its ports as child
elements instead of attributes. -/
def serializeEvent (e : XmlReplayEvent) : WireElement :=
  if e.tag = "getAvailableSerialPorts" then
    { tag := e.tag, attrs := [("time", timeStr e.time)], text := "",
      children := e.ports }
  else
    { tag := e.tag,
      attrs := ("time", timeStr e.time) :: e.keys.map (fun k => (k, hashGet e.values k)),
      text := e.data,
      children := [] }

/-- operator>> plus the virtual read(): every attribute except the outer
"time" attribute is fed to set(); the payload text is stored only for a
payload-capable variant.  The parsed timestamp is kept in a local in the
C++ and never stored, so the event keeps its construction time.  The
port-enumeration variant overrides read() to parse child elements into its
ports instead. -/
def readXml (e : XmlReplayEvent) (w : WireElement) : XmlReplayEvent :=
  if e.tag = "getAvailableSerialPorts" then
    { e with ports := w.children }
  else
    let e' := w.attrs.foldl (fun acc p => if p.1 = "time" then acc else acc.set p.1 p.2) e
    if e'.usesData then { e' with data := w.text } else e'

end XmlReplayEvent

/-- A zero-argument event constructor (XmlReplayEvent::FactoryMethod); the
construction timestamp is passed explicitly since the model has no ambient
clock. -/
def EventFactory : Type := Nat → XmlReplayEvent

/-- The default-constructed event of a variant: given tag and capability,
empty attributes and payload, current time. -/
def freshEvent (tag : String) (usesData : Bool) (now : Nat) : XmlReplayEvent :=
  { tag := tag, usesData := usesData, time := now,
    values := [], keys := [], data := "", ports := [] }

/-- The createInstance factory of the CRTP base for a given variant. -/
def mkEvent (tag : String) (usesData : Bool) : EventFactory :=
  fun now => freshEvent tag usesData now

/-- XmlReplayEvent::registerClass: duplicate registration fails and leaves
the registry untouched; otherwise the factory is added. -/
def XmlReplayEvent.registerClass (reg : List (String × EventFactory))
    (tag : String) (factory : EventFactory) : Bool × List (String × EventFactory) :=
  if assocContains reg tag then (false, reg)
  else (true, reg ++ [(tag, factory)])

/-- The static event registry s_factories after startup: the
REGISTER_XMLREPLAYEVENT expansions run registerClass once per variant, in
declaration order within the translation unit. -/
def eventRegistry : List (String × EventFactory) :=
  let r : List (String × EventFactory) := []
  let r := (XmlReplayEvent.registerClass r "getAvailableSerialPorts" (mkEvent "getAvailableSerialPorts" false)).2
  let r := (XmlReplayEvent.registerClass r "TBD" (mkEvent "TBD" false)).2
  let r := (XmlReplayEvent.registerClass r "set" (mkEvent "set" false)).2
  let r := (XmlReplayEvent.registerClass r "get" (mkEvent "get" false)).2
  let r := (XmlReplayEvent.registerClass r "openConnection" (mkEvent "openConnection" false)).2
  let r := (XmlReplayEvent.registerClass r "closeConnection" (mkEvent "closeConnection" false)).2
  let r := (XmlReplayEvent.registerClass r "clear" (mkEvent "clear" false)).2
  let r := (XmlReplayEvent.registerClass r "flush" (mkEvent "flush" false)).2
  let r := (XmlReplayEvent.registerClass r "rx" (mkEvent "rx" true)).2
  let r := (XmlReplayEvent.registerClass r "tx" (mkEvent "tx" true)).2
  r

/-- XmlReplayEvent::createInstance: look the tag up in the registry and run
the factory; an unknown tag yields nullptr (none). -/
def createInstance (now : Nat) (tag : String) : Option XmlReplayEvent :=
  (assocGet? eventRegistry tag).map (fun f => f now)

-- MARK: XmlReplay (replay index)

/-- Model of XmlReplay: the chronological list m_events of parsed events,
and the two-level index m_eventIndex mapping discriminator to identity to a
FIFO queue.  Queue entries are XmlReplayEvent pointers in the C++; they are
modelled as positions into the chronological list, which captures pointer
identity exactly. -/
structure XmlReplay where
  events : List XmlReplayEvent
  eventIndex : List (String × List (String × List Nat))
deriving Repr, DecidableEq, Inhabited

/-- The FIFO queue stored in the index for one (discriminator, identity)
key; empty when either level of the index lacks the key. -/
def XmlReplay.bucket (r : XmlReplay) (t i : String) : List Nat :=
  (assocGet? ((assocGet? r.eventIndex t).getD []) i).getD []

/-- Append a parsed event's position to its queue, creating the nested hash
entries on demand, as the auto-inserting m_eventIndex[type][id] does. -/
def indexAdd (idx : List (String × List (String × List Nat))) (t i : String)
    (pos : Nat) : List (String × List (String × List Nat)) :=
  assocUpdate idx t (fun ids => assocUpdate ids i (fun l => l ++ [pos]) []) []

/-- XmlReplay::getNextEvent(type, id), the untyped core, mirroring the
nested contains tests of the C++: when both index levels contain the key and
the queue is nonempty, pop and return the oldest entry (first then
removeFirst); otherwise report not-found and leave the index untouched. -/
def indexPop (idx : List (String × List (String × List Nat))) (t i : String) :
    Option Nat × List (String × List (String × List Nat)) :=
  if assocContains idx t then
    (if assocContains ((assocGet? idx t).getD []) i then
      (if ((assocGet? ((assocGet? idx t).getD []) i).getD []) = [] then (none, idx)
       else (((assocGet? ((assocGet? idx t).getD []) i).getD []).head?,
             assocUpdate idx t
               (fun ids => assocUpdate ids i
                 (fun _ => ((assocGet? ((assocGet? idx t).getD []) i).getD []).tail) []) []))
     else (none, idx))
  else (none, idx)

/-- XmlReplay::getNextEvent(type, id) acting on the whole replay state,
returning the popped position. -/
def XmlReplay.getNextEvent (r : XmlReplay) (t i : String) : Option Nat × XmlReplay :=
  ((indexPop r.eventIndex t i).1, { r with eventIndex := (indexPop r.eventIndex t i).2 })

/-- The typed template getNextEvent of T: the untyped lookup under T::TAG
followed by the dynamic_cast, which always succeeds because every queue entry
under a tag was created by that tag's factory; the model therefore returns
the event stored at the popped position. -/
def XmlReplay.getNextEventT (r : XmlReplay) (t i : String) :
    Option XmlReplayEvent × XmlReplay :=
  let (p, r') := r.getNextEvent t i
  (p.bind (fun n => r.events[n]?), r')

/-- One step of XmlReplay::deserializeEvents: create an instance for the
element's tag (skipping the element when the tag is unregistered), parse the
element into it, append it to the chronological list and to the index queue
of its (discriminator, identity) key. -/
def addEvent (now : Nat) (r : XmlReplay) (w : WireElement) : XmlReplay :=
  match createInstance now w.tag with
  | none => r
  | some e0 =>
    let e := e0.readXml w
    { events := r.events ++ [e],
      eventIndex := indexAdd r.eventIndex w.tag e.eventId r.events.length }

/-- XmlReplay::deserializeEvents over a whole recorded stream (the children
of the events container, in document order). -/
def XmlReplay.deserializeEvents (now : Nat) (ws : List WireElement) : XmlReplay :=
  ws.foldl (addEvent now) { events := [], eventIndex := [] }

/-- The events a recorded stream parses into, in order: exactly the elements
whose tags are registered. -/
def parsedEvents (now : Nat) (ws : List WireElement) : List XmlReplayEvent :=
  ws.filterMap (fun w => (createInstance now w.tag).map (fun e0 => e0.readXml w))

/-- Run a session of replay lookups (a list of (discriminator, identity)
requests) against a replay state, collecting each result. -/
def runLookups (r : XmlReplay) : List (String × String) → List (Option Nat)
  | [] => []
  | k :: ks => (r.getNextEvent k.1 k.2).1 :: runLookups (r.getNextEvent k.1 k.2).2 ks

/-- The positions (counting from base) of the events in a list whose
(discriminator, identity) key is (t, i), oldest first. -/
def keyPositions (base : Nat) (evs : List XmlReplayEvent) (t i : String) : List Nat :=
  match evs with
  | [] => []
  | e :: rest =>
    if e.tag = t ∧ e.eventId = i then base :: keyPositions (base + 1) rest t i
    else keyPositions (base + 1) rest t i

/-- The recorded events with a given (discriminator, identity) key, oldest
first. -/
def matchesList (evs : List XmlReplayEvent) (t i : String) : List XmlReplayEvent :=
  evs.filter (fun e => e.tag = t ∧ e.eventId = i)

-- MARK: XmlRecorder

/-- Model of XmlRecorder: the ordered append-only sequence of serialized
events written between the prologue and epilogue.  The mutex only serializes
concurrent appends; the model is the single-threaded semantics. -/
structure XmlRecorder where
  log : List WireElement
deriving Repr, DecidableEq, Inhabited

/-- XmlReplayEvent::record: appending the serialized event to the recorder,
a no-op when the recorder is null. -/
def XmlReplayEvent.record (e : XmlReplayEvent) (w : Option XmlRecorder) :
    Option XmlRecorder :=
  match w with
  | none => none
  | some rec => some { log := rec.log ++ [e.serializeEvent] }

-- MARK: Serial port connection

/-- QSerialPort::SerialPortError values used by the code. -/
def QSerialPortNoError : Int := 0
/-- QSerialPort::DeviceNotFoundError. -/
def QSerialPortDeviceNotFoundError : Int := 1
/-- QSerialPort::ReadError. -/
def QSerialPortReadError : Int := 8
/-- QSerialPort::ResourceError. -/
def QSerialPortResourceError : Int := 9

/-- The outcome of the live transport calls an operation makes, treated as
an oracle: the physical transport is an external collaborator outside the
specified core.  err is the value m_port.error() reports after the call. -/
structure PortOracle where
  openOk : Bool
  err : Int
  readLen : Int
  readBytes : List Nat
  writeLen : Int
deriving Repr, Inhabited

/-- SerialPortConnection::checkResult(bool, event): on failure (or a
lingering error state) an "error" attribute is set, plus an "ok" attribute
in the unexpected ok-with-error case. -/
def checkResultB (portOk : Bool) (err : Int) (e : XmlReplayEvent) : XmlReplayEvent :=
  if portOk ∧ err = QSerialPortNoError then e
  else
    let e := e.setInt "error" err
    if portOk then e.setInt "ok" 1 else e

/-- SerialPortConnection::checkResult(qint64, event): a negative length or a
reported error sets the "error" attribute. -/
def checkResultLen (len : Int) (err : Int) (e : XmlReplayEvent) : XmlReplayEvent :=
  if len < 0 ∨ err ≠ QSerialPortNoError then e.setInt "error" err else e

/-- SerialPortConnection::checkError(event). -/
def checkError (err : Int) (e : XmlReplayEvent) : XmlReplayEvent :=
  if err ≠ QSerialPortNoError then e.setInt "error" err else e

/-- The state a SerialPortConnection owns: its name and opened flag. -/
structure SerialPortConnection where
  name : String
  opened : Bool
deriving Repr, DecidableEq, Inhabited

/-- A connection together with the recorder/replay context injected into it;
the replay index and recorder are shared with the manager, so operations
return the updated context. -/
structure ConnCtx where
  conn : SerialPortConnection
  record : Option XmlRecorder
  replay : Option XmlReplay
deriving Repr, Inhabited

/-- SerialPortConnection::open.  Returns the result, the outcome event the
call constructed (none for the early already-opened return, which builds no
event), and the updated context.  The live branch consults the transport
oracle; the replay branch consumes the next openConnection event for this
connection name, synthesizing a DeviceNotFoundError on exhaustion.  The
outcome is recorded in both branches and m_opened becomes the outcome's
success. -/
def SerialPortConnection.doOpen (ctx : ConnCtx) (now : Nat) (port : PortOracle) :
    Bool × Option XmlReplayEvent × ConnCtx :=
  if ctx.conn.opened then (false, none, ctx)
  else
    let event := ((freshEvent "openConnection" false now).set "type" "serial").set "name" ctx.conn.name
    match ctx.replay with
    | none =>
      let event := checkResultB port.openOk port.err event
      let record := event.record ctx.record
      (event.ok, some event,
        { ctx with conn := { ctx.conn with opened := event.ok }, record := record })
    | some rp =>
      let (re, rp') := rp.getNextEventT "openConnection" ctx.conn.name
      let event := match re with
        | some r => event.copyIf (some r)
        | none => event.setInt "error" QSerialPortDeviceNotFoundError
      let record := event.record ctx.record
      (event.ok, some event,
        { ctx with conn := { ctx.conn with opened := event.ok },
                   record := record, replay := some rp' })

/-- SerialPortConnection::close.  Builds the closeConnection outcome; the
replay branch synthesizes a ResourceError on exhaustion; the outcome is
recorded in both branches.  The opened flag is not touched by close. -/
def SerialPortConnection.close (ctx : ConnCtx) (now : Nat) (port : PortOracle) :
    XmlReplayEvent × ConnCtx :=
  let event := ((freshEvent "closeConnection" false now).set "type" "serial").set "name" ctx.conn.name
  match ctx.replay with
  | none =>
    let event := checkError port.err event
    let record := event.record ctx.record
    (event, { ctx with record := record })
  | some rp =>
    let (re, rp') := rp.getNextEventT "closeConnection" ctx.conn.name
    let event := match re with
      | some r => event.copyIf (some r)
      | none => event.setInt "error" QSerialPortResourceError
    let record := event.record ctx.record
    (event, { ctx with record := record, replay := some rp' })

/-- SerialPortConnection::read.  The live branch fills the rx outcome from
the transport; the replay branch consumes the next rx event (the rx variant
has no identity), synthesizing len -1 and a ReadError on exhaustion, and
parses the resulting "len" attribute, falling back to -1 when malformed.
The function returns the length, the outcome event, and the context: read
only debug-prints its outcome event and never records it, so the recorder
is left untouched in both branches. -/
def SerialPortConnection.read (ctx : ConnCtx) (now : Nat) (port : PortOracle)
    (maxSize : Int) : Int × XmlReplayEvent × ConnCtx :=
  let event := freshEvent "rx" true now
  match ctx.replay with
  | none =>
    let len := port.readLen
    let event := if len > 0 then event.setData (port.readBytes.take len.toNat) else event
    let event := event.setInt "len" len
    let event := if len ≠ maxSize then event.setInt "req" maxSize else event
    let event := checkResultLen len port.err event
    (len, event, ctx)
  | some rp =>
    let (re, rp') := rp.getNextEventT "rx" event.eventId
    let event := event.copyIf re
    let event := match re with
      | some _ => event
      | none => (event.setInt "len" (-1)).setInt "error" QSerialPortReadError
    let len := match qToLong (event.get "len") with
      | (v, true) => v
      | (_, false) => -1
    (len, event, { ctx with replay := some rp' })

/-- SerialPortConnection::write.  The tx outcome carries the transmitted
payload; its identity is that payload string, so replay correlates
byte-identical writes in FIFO order.  The replay branch synthesizes len -1
and a ReadError on exhaustion.  The outcome is recorded in both branches. -/
def SerialPortConnection.write (ctx : ConnCtx) (now : Nat) (port : PortOracle)
    (bytes : List Nat) : Int × XmlReplayEvent × ConnCtx :=
  let maxSize : Int := bytes.length
  let event := (freshEvent "tx" true now).setData bytes
  match ctx.replay with
  | none =>
    let len := port.writeLen
    let event := event.setInt "len" len
    let event := if len ≠ maxSize then event.setInt "req" maxSize else event
    let event := checkResultLen len port.err event
    let record := event.record ctx.record
    (len, event, { ctx with record := record })
  | some rp =>
    let (re, rp') := rp.getNextEventT "tx" event.eventId
    let event := event.copyIf re
    let event := match re with
      | some _ => event
      | none => (event.setInt "len" (-1)).setInt "error" QSerialPortReadError
    let len := match qToLong (event.get "len") with
      | (v, true) => v
      | (_, false) => -1
    let record := event.record ctx.record
    (len, event, { ctx with record := record, replay := some rp' })

-- MARK: Device connection manager

/-- A connection factory (DeviceConnection::FactoryMethod): the recorder and
replay context are injected separately through ConnCtx, so the factory maps
the requested name to the fresh connection state the constructor builds. -/
def ConnFactory : Type := String → SerialPortConnection

/-- The factory REGISTER_DEVICECONNECTION installs for the serial type: a
fresh, not yet opened connection with the requested name. -/
def serialPortFactory : ConnFactory :=
  fun name => { name := name, opened := false }

/-- Model of the DeviceConnectionManager singleton state: the active
recorder and replay index (both nullable) and the open-connections map. -/
structure DeviceConnectionManager where
  record : Option XmlRecorder
  replay : Option XmlReplay
  connections : List (String × SerialPortConnection)
deriving Repr, Inhabited

/-- DeviceConnectionManager::registerClass: duplicate registration of a
connection type fails and leaves the registry untouched. -/
def DeviceConnectionManager.registerClass (reg : List (String × ConnFactory))
    (type : String) (factory : ConnFactory) : Bool × List (String × ConnFactory) :=
  if assocContains reg type then (false, reg)
  else (true, reg ++ [(type, factory)])

/-- The static connection registry after startup: one serial entry. -/
def connRegistry : List (String × ConnFactory) :=
  (DeviceConnectionManager.registerClass [] "serial" serialPortFactory).2

/-- DeviceConnectionManager::openConnection: fail on an unknown type; fail
when the name is already open; otherwise build the connection via the
factory with the current recorder/replay context injected, attempt open,
discard the instance on open failure, else register it under its name.  The
open attempt may consume a replay event and record an outcome, so the
recorder/replay context is threaded back even on open failure. -/
def DeviceConnectionManager.openConnection (mgr : DeviceConnectionManager)
    (reg : List (String × ConnFactory)) (type name : String) (now : Nat)
    (port : PortOracle) : Option SerialPortConnection × DeviceConnectionManager :=
  match assocGet? reg type with
  | none => (none, mgr)
  | some factory =>
    if assocContains mgr.connections name then (none, mgr)
    else
      let conn := factory name
      let (okOpen, _, ctx') :=
        SerialPortConnection.doOpen { conn := conn, record := mgr.record, replay := mgr.replay } now port
      if okOpen then
        (some ctx'.conn,
          { record := ctx'.record, replay := ctx'.replay,
            connections := mgr.connections ++ [(name, ctx'.conn)] })
      else
        (none, { mgr with record := ctx'.record, replay := ctx'.replay })


/-- The attribute-reading fold inside the base read(): feed every attribute
except the outer "time" attribute to set(), in document order.  readXml is
definitionally this fold followed by the payload step. -/
def setAll (e : XmlReplayEvent) (ps : List (String × String)) : XmlReplayEvent :=
  ps.foldl (fun acc p => if p.1 = "time" then acc else acc.set p.1 p.2) e

-- MARK: Helper lemmas

/-- A successful association lookup implies key membership. -/
theorem assocContains_of_get? {α : Type} (h : List (String × α)) (k : String)
    (v : α) (hv : assocGet? h k = some v) : assocContains h k = true := by
  induction h with
  | nil => simp [assocGet?] at hv
  | cons p rest ih =>
    by_cases hp : p.1 = k
    · simp [assocContains, hp]
    · simp only [assocGet?, if_neg hp] at hv
      simp [assocContains, hp, ih hv]

/-- Writing a key into the QHash model makes it read back the new value. -/
theorem hashGet_hashSet_self (h : List (String × String)) (k v : String) :
    hashGet (hashSet h k v) k = v := by
  induction h with
  | nil => simp [hashSet, hashGet]
  | cons p rest ih =>
    by_cases hp : p.1 = k
    · simp [hashSet, hashGet, hp]
    · simp [hashSet, hashGet, hp, ih]

/-- Writing a key into the QHash model leaves every other key unchanged. -/
theorem hashGet_hashSet_other (h : List (String × String)) (k v q : String)
    (hq : q ≠ k) : hashGet (hashSet h k v) q = hashGet h q := by
  induction h with
  | nil => simp [hashSet, hashGet, Ne.symm hq]
  | cons p rest ih =>
    by_cases hp : p.1 = k
    · simp [hashSet, hashGet, hp, Ne.symm hq]
    · simp [hashSet, hashGet, hp, ih]

/-- hexDigitU never produces a space. -/
theorem hexDigitU_ne_space (n : Nat) : hexDigitU n ≠ ' ' := by
  unfold hexDigitU
  split <;> decide

/-- Splitting a space-free character list returns it whole, appended to the
pending accumulator. -/
theorem splitCharsAux_no_space (t : List Char) (h : ' ' ∉ t) (acc : List Char) :
    splitCharsAux t acc = [acc.reverse ++ t] := by
  induction t generalizing acc with
  | nil => simp [splitCharsAux]
  | cons c cs ih =>
    have hc : ¬ (c = ' ') := fun e => h (by simp [e])
    simp only [splitCharsAux, if_neg hc]
    rw [ih (fun hm => h (List.mem_cons_of_mem _ hm)) (c :: acc)]
    simp

/-- Splitting consumes a space-free token up to the first separator. -/
theorem splitCharsAux_break (t js : List Char) (h : ' ' ∉ t) (acc : List Char) :
    splitCharsAux (t ++ ' ' :: js) acc = (acc.reverse ++ t) :: splitCharsAux js [] := by
  induction t generalizing acc with
  | nil => simp [splitCharsAux]
  | cons c cs ih =>
    have hc : ¬ (c = ' ') := fun e => h (by simp [e])
    rw [List.cons_append]
    simp only [splitCharsAux, if_neg hc]
    rw [ih (fun hm => h (List.mem_cons_of_mem _ hm)) (c :: acc)]
    simp

/-- Splitting at spaces undoes joining with spaces for a nonempty list of
space-free tokens. -/
theorem split_join (ts : List (List Char)) (hne : ts ≠ [])
    (h : ∀ t ∈ ts, ' ' ∉ t) :
    splitCharsAux (joinSpaceChars ts) [] = ts := by
  induction ts with
  | nil => exact absurd rfl hne
  | cons t rest ih =>
    cases rest with
    | nil =>
      rw [joinSpaceChars, splitCharsAux_no_space t (h t (by simp)) []]
      simp
    | cons u rs =>
      have hne2 : u :: rs ≠ [] := fun hh => List.noConfusion hh
      have hsub : ∀ x ∈ u :: rs, ' ' ∉ x := fun x hx => h x (List.mem_cons_of_mem _ hx)
      rw [joinSpaceChars, splitCharsAux_break t _ (h t (by simp)) []]
      rw [ih hne2 hsub]
      simp

/-- The Qt split of the Qt join of nonempty, space-free strings. -/
theorem qSplitSpace_joinSpace (strs : List String) (hne : strs ≠ [])
    (h : ∀ s ∈ strs, ' ' ∉ s.data) :
    qSplitSpace (joinSpace strs) = strs := by
  unfold qSplitSpace joinSpace
  rw [show (String.mk (joinSpaceChars (strs.map String.data))).data
        = joinSpaceChars (strs.map String.data) from rfl]
  rw [split_join (strs.map String.data) (by simpa using hne)
    (by intro t ht
        obtain ⟨s, hs, rfl⟩ := List.mem_map.1 ht
        exact h s hs)]
  rw [List.map_map]
  rw [show ((fun l => (⟨l⟩ : String)) ∘ String.data) = id from rfl, List.map_id]

set_option maxRecDepth 8000 in
/-- Decoding the two-digit uppercase hex token of a byte recovers the byte:
toShort with base 16 parses it and the (char) narrowing is the identity. -/
theorem hexTok_decode : ∀ b : Nat, b < 256 →
    ((qToShortHex ⟨[hexDigitU (b / 16), hexDigitU (b % 16)]⟩).1 % 256).toNat = b := by
  decide

-- MARK: Claim theorems

/-- C9: when a replay lookup found a matching recorded event, copyIf
replaces the fresh outcome event's attribute values, attribute key order and
binary payload with the recorded ones while leaving the timestamp (and the
variant identity) of the fresh event unchanged; when the recorded event is
absent, copyIf leaves every field of the fresh event unchanged. -/
theorem c9_copyIf_frame (e o : XmlReplayEvent) :
    (e.copyIf (some o)).values = o.values ∧
    (e.copyIf (some o)).keys = o.keys ∧
    (e.copyIf (some o)).data = o.data ∧
    (e.copyIf (some o)).time = e.time ∧
    (e.copyIf (some o)).tag = e.tag ∧
    (e.copyIf (some o)).usesData = e.usesData ∧
    (e.copyIf (some o)).ports = e.ports ∧
    e.copyIf none = e :=
  ⟨rfl, rfl, rfl, rfl, rfl, rfl, rfl, rfl⟩

/-- C7: for both the discriminator-to-event-factory registry and the
type-to-connection-factory registry, registering a second factory under an
already-registered tag/type returns false and leaves the registry - in
particular the first-registered factory - in place.  Both registration
functions are total, so a failed registration is an ordinary false result,
never an abort. -/
theorem c7_duplicate_registration (ereg : List (String × EventFactory))
    (creg : List (String × ConnFactory)) (tag type : String)
    (f g : EventFactory) (cf cg : ConnFactory) :
    (assocGet? ereg tag = some g →
      XmlReplayEvent.registerClass ereg tag f = (false, ereg) ∧
      assocGet? (XmlReplayEvent.registerClass ereg tag f).2 tag = some g) ∧
    (assocGet? creg type = some cg →
      DeviceConnectionManager.registerClass creg type cf = (false, creg) ∧
      assocGet? (DeviceConnectionManager.registerClass creg type cf).2 type = some cg) := by
  constructor
  · intro hv
    have hc := assocContains_of_get? ereg tag g hv
    constructor
    · simp [XmlReplayEvent.registerClass, hc]
    · simp [XmlReplayEvent.registerClass, hc, hv]
  · intro hv
    have hc := assocContains_of_get? creg type cg hv
    constructor
    · simp [DeviceConnectionManager.registerClass, hc]
    · simp [DeviceConnectionManager.registerClass, hc, hv]

/-- Witness for C7: re-registering the set event tag and the serial
connection type on the startup registries fails and leaves both registries
unchanged. -/
theorem c7_witness :
    assocGet? eventRegistry "set" = some (mkEvent "set" false) ∧
    XmlReplayEvent.registerClass eventRegistry "set" (mkEvent "set" false) = (false, eventRegistry) ∧
    assocGet? connRegistry "serial" = some serialPortFactory ∧
    DeviceConnectionManager.registerClass connRegistry "serial" serialPortFactory = (false, connRegistry) :=
  ⟨rfl,
   ((c7_duplicate_registration eventRegistry connRegistry "set" "serial"
      (mkEvent "set" false) (mkEvent "set" false) serialPortFactory serialPortFactory).1 rfl).1,
   rfl,
   ((c7_duplicate_registration eventRegistry connRegistry "set" "serial"
      (mkEvent "set" false) (mkEvent "set" false) serialPortFactory serialPortFactory).2 rfl).1⟩

/-- C5 (amended): hex round-trip holds for byte sequences of length 1..N:
encoding a nonempty list of bytes with setData and decoding with getData
returns the original bytes exactly.  The empty sequence is excluded: Qt
splits the empty payload string into one empty token, which toShort maps to
a zero byte, so the empty sequence decodes to a single 0x00 byte. -/
theorem c5_hex_roundtrip (e : XmlReplayEvent) (bytes : List Nat)
    (hu : e.usesData = true) (hne : bytes ≠ []) (hlt : ∀ b ∈ bytes, b < 256) :
    (e.setData bytes).getData = bytes := by
  unfold XmlReplayEvent.setData XmlReplayEvent.getData
  simp only
  rw [qSplitSpace_joinSpace _ (by simpa using hne)
    (by intro s hs
        obtain ⟨b, _, rfl⟩ := List.mem_map.1 hs
        intro hsp
        simp only [List.mem_cons, List.not_mem_nil, or_false] at hsp
        rcases hsp with h1 | h1 <;> exact hexDigitU_ne_space _ h1.symm)]
  rw [List.map_map]
  have hcongr : ∀ b ∈ bytes,
      (((fun s => ((qToShortHex s).1 % 256).toNat) ∘
        (fun b => (⟨[hexDigitU (b % 256 / 16), hexDigitU (b % 256 % 16)]⟩ : String))) b) = id b := by
    intro b hb
    have hb' : b % 256 = b := Nat.mod_eq_of_lt (hlt b hb)
    simp only [Function.comp, hb', id]
    exact hexTok_decode b (hlt b hb)
  rw [List.map_congr_left hcongr, List.map_id]

/-- Witness for C5: the two-byte sequence 0x41 0xFF round-trips. -/
theorem c5_witness :
    ((freshEvent "tx" true 0).setData [65, 255]).getData = [65, 255] :=
  c5_hex_roundtrip (freshEvent "tx" true 0) [65, 255] rfl (by decide) (by decide)

/-- Counterexample for C5 as stated: the empty byte sequence (length 0)
does not round-trip; it decodes to a single zero byte, because the Qt split
of the empty payload string yields one empty token and toShort maps the
failed parse to 0, which getData appends regardless. -/
theorem c5_counterexample :
    ((freshEvent "tx" true 0).setData []).getData = [0] ∧
    ((freshEvent "tx" true 0).setData []).getData ≠ ([] : List Nat) := by
  constructor <;> decide

/-- C3: SerialPortConnection::read never records its outcome event: in both
the live branch and the replay branch the recorder handle (and hence the
recorded stream) is left exactly as it was; the outcome event is only
debug-printed.  Every other operation ends with record(m_record); read is
the one operation that does not, so a recorded session contains no rx
events and a subsequent replay of a read must exhaust. -/
theorem c3_read_never_records (ctx : ConnCtx) (now : Nat) (port : PortOracle)
    (maxSize : Int) :
    (SerialPortConnection.read ctx now port maxSize).2.2.record = ctx.record := by
  obtain ⟨conn, rec, rep⟩ := ctx
  cases rep <;> simp [SerialPortConnection.read]

/-- C10: calling open() on a serial connection that is already opened
returns false immediately: no outcome event is constructed, the transport
oracle is never consulted, no replay event is consumed, and nothing is
recorded - the whole context is returned unchanged. -/
theorem c10_reopen_noop (ctx : ConnCtx) (now : Nat) (port : PortOracle)
    (h : ctx.conn.opened = true) :
    SerialPortConnection.doOpen ctx now port = (false, none, ctx) := by
  unfold SerialPortConnection.doOpen
  rw [h]
  simp

/-- Witness for C10 at a concrete already-opened connection. -/
theorem c10_witness :
    (⟨⟨"COM3", true⟩, none, none⟩ : ConnCtx).conn.opened = true ∧
    SerialPortConnection.doOpen ⟨⟨"COM3", true⟩, none, none⟩ 0 default
      = (false, none, ⟨⟨"COM3", true⟩, none, none⟩) :=
  ⟨rfl, c10_reopen_noop ⟨⟨"COM3", true⟩, none, none⟩ 0 default rfl⟩

-- MARK: C8 and C4

/-- C8 (amended): the attribute list preserves key insertion order (set
appends the key to m_keys) and on a duplicate key the last written value
wins in m_values, with other keys untouched; however a key set n times
appears n times in m_keys, and the serialized output emits one attribute per
m_keys entry - so a duplicated key appears once per set call, each
occurrence carrying the last-written value, not once at its original
position. -/
theorem c8_attribute_order (e : XmlReplayEvent) (k q v : String)
    (hq : q ≠ k) (htag : e.tag ≠ "getAvailableSerialPorts") :
    (e.set k v).keys = e.keys ++ [k] ∧
    hashGet (e.set k v).values k = v ∧
    hashGet (e.set k v).values q = hashGet e.values q ∧
    (e.set k v).keys.count k = e.keys.count k + 1 ∧
    e.serializeEvent.attrs
      = ("time", timeStr e.time) :: e.keys.map (fun kk => (kk, hashGet e.values kk)) := by
  refine ⟨rfl, hashGet_hashSet_self _ _ _, hashGet_hashSet_other _ _ _ _ hq, ?_, ?_⟩
  · simp [XmlReplayEvent.set]
  · simp [XmlReplayEvent.serializeEvent, htag]

/-- Witness for C8 on a concrete event with a duplicated key. -/
theorem c8_witness :
    (((freshEvent "set" false 0).set "k" "a").set "k" "b").keys = ["k", "k"] ∧
    hashGet (((freshEvent "set" false 0).set "k" "a").set "k" "b").values "k" = "b" ∧
    hashGet (((freshEvent "set" false 0).set "k" "a").set "k" "b").values "other" = "" := by
  have h := c8_attribute_order ((freshEvent "set" false 0).set "k" "a") "k" "other" "b"
    (by decide) (by decide)
  exact ⟨h.1, h.2.1, h.2.2.1⟩

/-- Counterexample for C8 as stated: setting the same key twice makes it
appear twice in the serialized attribute output, not once. -/
theorem c8_counterexample :
    ((((freshEvent "set" false 0).set "k" "a").set "k" "b").serializeEvent.attrs.countP
      (fun p => p.1 = "k")) = 2 ∧
    ¬ ((((freshEvent "set" false 0).set "k" "a").set "k" "b").serializeEvent.attrs.countP
      (fun p => p.1 = "k")) = 1 := by
  constructor <;> decide

/-- set() preserves the variant identity, payload and timestamp. -/
theorem set_preserves (e : XmlReplayEvent) (k v : String) :
    (e.set k v).tag = e.tag ∧ (e.set k v).usesData = e.usesData ∧
    (e.set k v).data = e.data ∧ (e.set k v).time = e.time :=
  ⟨rfl, rfl, rfl, rfl⟩

/-- The attribute fold preserves the variant identity, payload and
timestamp. -/
theorem setAll_preserves (ps : List (String × String)) (e : XmlReplayEvent) :
    (setAll e ps).tag = e.tag ∧ (setAll e ps).usesData = e.usesData ∧
    (setAll e ps).data = e.data := by
  induction ps generalizing e with
  | nil => exact ⟨rfl, rfl, rfl⟩
  | cons p rest ih =>
    by_cases hp : p.1 = "time"
    · simpa [setAll, hp] using ih e
    · simpa [setAll, hp] using ih (e.set p.1 p.2)

/-- The attribute fold appends the fed keys to m_keys in order, when none of
them is the skipped "time" key. -/
theorem setAll_keys (ps : List (String × String)) (e : XmlReplayEvent)
    (h : ∀ p ∈ ps, p.1 ≠ "time") :
    (setAll e ps).keys = e.keys ++ ps.map (fun p => p.1) := by
  induction ps generalizing e with
  | nil => simp [setAll]
  | cons p rest ih =>
    have hp : ¬ (p.1 = "time") := h p (by simp)
    have := ih (e.set p.1 p.2) (fun x hx => h x (List.mem_cons_of_mem _ hx))
    simp only [setAll, List.foldl_cons, if_neg hp] at this ⊢
    rw [this]
    simp [XmlReplayEvent.set]

/-- Value lookup after the attribute fold, when every fed pair carries the
value f of its key and no fed key is "time": keys that were fed read back f,
others read the original hash. -/
theorem setAll_get (ps : List (String × String)) (f : String → String)
    (hf : ∀ p ∈ ps, p.2 = f p.1) (htime : ∀ p ∈ ps, p.1 ≠ "time")
    (e : XmlReplayEvent) (q : String) :
    hashGet (setAll e ps).values q =
      if q ∈ ps.map (fun p => p.1) then f q else hashGet e.values q := by
  induction ps generalizing e with
  | nil => simp [setAll]
  | cons p rest ih =>
    have hp : ¬ (p.1 = "time") := htime p (by simp)
    have hrec := ih (fun x hx => hf x (List.mem_cons_of_mem _ hx))
      (fun x hx => htime x (List.mem_cons_of_mem _ hx)) (e.set p.1 p.2)
    simp only [setAll, List.foldl_cons, if_neg hp] at hrec ⊢
    rw [hrec]
    by_cases hmem : q ∈ rest.map (fun p => p.1)
    · simp [hmem]
    · by_cases hq : q = p.1
      · subst hq
        simp only [if_neg hmem, XmlReplayEvent.set, hashGet_hashSet_self]
        simp [hf p (by simp)]
      · simp only [if_neg hmem, XmlReplayEvent.set, hashGet_hashSet_other _ _ _ _ hq]
        simp [hmem, hq]

/-- A key outside m_keys reads back the empty string when the event is
well-formed (every stored value's key is listed in m_keys, the invariant
every construction path maintains). -/
theorem hashGet_empty_of_not_mem (vals : List (String × String)) (keys : List String)
    (hWF : ∀ p ∈ vals, p.1 ∈ keys) (q : String) (hq : q ∉ keys) :
    hashGet vals q = "" := by
  induction vals with
  | nil => rfl
  | cons p rest ih =>
    have hne : ¬ (p.1 = q) := fun e => hq (e ▸ hWF p (by simp))
    simp only [hashGet, if_neg hne]
    exact ih (fun x hx => hWF x (List.mem_cons_of_mem _ hx))

/-- C4 (amended): serializing a single event with the base serializer (every
variant except the port-enumeration event, which overrides write/read with a
ports payload) and deserializing the result into a fresh instance of the
same variant yields identical attributes - the same key list in the same
order and the same value under every key - and the identical payload string
(hence identical payload bytes), with the timestamp not restored.  The
event must be well-formed: no attribute key may be the reserved "time" key,
which the serializer plants and the deserializer skips; stored values must
have their keys listed in m_keys, as every construction path guarantees; and
a nonempty payload may only sit on a payload-capable variant, which the
write-side assertion enforces. -/
theorem c4_roundtrip (e : XmlReplayEvent) (now2 : Nat)
    (htag : e.tag ≠ "getAvailableSerialPorts")
    (htime : "time" ∉ e.keys)
    (hWF : ∀ p ∈ e.values, p.1 ∈ e.keys)
    (hdata : e.usesData = true ∨ e.data = "") :
    ((freshEvent e.tag e.usesData now2).readXml e.serializeEvent).keys = e.keys ∧
    (∀ q, hashGet ((freshEvent e.tag e.usesData now2).readXml e.serializeEvent).values q
      = hashGet e.values q) ∧
    ((freshEvent e.tag e.usesData now2).readXml e.serializeEvent).data = e.data := by
  have hser : e.serializeEvent.attrs
      = ("time", timeStr e.time) :: e.keys.map (fun kk => (kk, hashGet e.values kk)) := by
    simp [XmlReplayEvent.serializeEvent, htag]
  have hsertext : e.serializeEvent.text = e.data := by
    simp [XmlReplayEvent.serializeEvent, htag]
  set ps := e.keys.map (fun kk => (kk, hashGet e.values kk)) with hps
  have hfst : ps.map (fun p => p.1) = e.keys := by
    rw [hps, List.map_map]
    calc List.map ((fun p : String × String => p.1) ∘ fun kk => (kk, hashGet e.values kk)) e.keys
        = List.map id e.keys := List.map_congr_left (fun a _ => rfl)
      _ = e.keys := List.map_id e.keys
  have hnotime : ∀ p ∈ ps, p.1 ≠ "time" := by
    intro p hp
    obtain ⟨kk, hkk, rfl⟩ := List.mem_map.1 hp
    exact fun h => htime (h ▸ hkk)
  have hconst : ∀ p ∈ ps, p.2 = hashGet e.values p.1 := by
    intro p hp
    obtain ⟨kk, _, rfl⟩ := List.mem_map.1 hp
    rfl
  -- unfold readXml on the non-port variant
  have hread : (freshEvent e.tag e.usesData now2).readXml e.serializeEvent
      = (if (setAll (freshEvent e.tag e.usesData now2) e.serializeEvent.attrs).usesData = true
         then { setAll (freshEvent e.tag e.usesData now2) e.serializeEvent.attrs with
                  data := e.serializeEvent.text }
         else setAll (freshEvent e.tag e.usesData now2) e.serializeEvent.attrs) := by
    unfold XmlReplayEvent.readXml
    rw [if_neg (show ¬ ((freshEvent e.tag e.usesData now2).tag = "getAvailableSerialPorts") from htag)]
    rfl
  have hskip : setAll (freshEvent e.tag e.usesData now2) e.serializeEvent.attrs
      = setAll (freshEvent e.tag e.usesData now2) ps := by
    rw [hser]
    simp [setAll]
  rw [hskip] at hread
  have hud : (setAll (freshEvent e.tag e.usesData now2) ps).usesData = e.usesData :=
    (setAll_preserves ps _).2.1
  have hkeys : (setAll (freshEvent e.tag e.usesData now2) ps).keys = e.keys := by
    rw [setAll_keys ps _ hnotime, hfst]
    rfl
  have hvals : ∀ q, hashGet (setAll (freshEvent e.tag e.usesData now2) ps).values q
      = hashGet e.values q := by
    intro q
    rw [setAll_get ps (fun kk => hashGet e.values kk) hconst hnotime]
    rw [hfst]
    by_cases hmem : q ∈ e.keys
    · simp [hmem]
    · rw [if_neg hmem]
      exact (hashGet_empty_of_not_mem e.values e.keys hWF q hmem).symm
  rw [hread]
  by_cases hU : (setAll (freshEvent e.tag e.usesData now2) ps).usesData = true
  · simp only [if_pos hU]
    exact ⟨hkeys, hvals, hsertext⟩
  · simp only [if_neg hU]
    refine ⟨hkeys, hvals, ?_⟩
    rw [(setAll_preserves ps _).2.2]
    rcases hdata with h | h
    · exact absurd (hud.trans h) hU
    · rw [h]
      rfl

/-- Witness for C4 on a concrete openConnection event. -/
theorem c4_witness :
    (((freshEvent "openConnection" false 9).readXml
        (((freshEvent "openConnection" false 5).set "type" "serial").set "name" "COM3").serializeEvent)).keys
      = ["type", "name"] ∧
    hashGet (((freshEvent "openConnection" false 9).readXml
        (((freshEvent "openConnection" false 5).set "type" "serial").set "name" "COM3").serializeEvent)).values "name"
      = "COM3" := by
  have h := c4_roundtrip (((freshEvent "openConnection" false 5).set "type" "serial").set "name" "COM3")
    9 (by decide) (by decide) (by decide) (Or.inr rfl)
  exact ⟨h.1, (h.2.1 "name").trans (by decide)⟩

/-- Counterexample for C4 as stated: an event carrying an attribute whose
key is the reserved "time" name loses that attribute across the round trip,
because the serializer writes the timestamp under the same name and the
deserializer skips every "time" attribute. -/
theorem c4_counterexample :
    ((freshEvent "set" false 7).readXml
        ((freshEvent "set" false 5).set "time" "BOOM").serializeEvent).keys = [] ∧
    ((freshEvent "set" false 7).readXml
        ((freshEvent "set" false 5).set "time" "BOOM").serializeEvent).keys
      ≠ ((freshEvent "set" false 5).set "time" "BOOM").keys := by
  constructor <;> decide

-- MARK: C2

/-- C2: whenever no recorded event matches the requested (discriminator,
identity) key - replay exhaustion - every operation returns its documented
fallback failure: read and write return length -1 with the "len" attribute
set to -1 and a ReadError error attribute; open returns false with a
synthesized DeviceNotFoundError; close synthesizes a ResourceError.  All
four operations are total functions of the state, so exhaustion can never
be anything but these ordinary failure outcomes. -/
theorem c2_replay_exhaustion (ctx : ConnCtx) (rp : XmlReplay) (now : Nat)
    (port : PortOracle) (maxSize : Int) (bytes : List Nat)
    (hrp : ctx.replay = some rp) :
    ((rp.getNextEventT "rx" "").1 = none →
      (SerialPortConnection.read ctx now port maxSize).1 = -1 ∧
      (SerialPortConnection.read ctx now port maxSize).2.1.get "len" = "-1" ∧
      (SerialPortConnection.read ctx now port maxSize).2.1.get "error"
        = qNumber QSerialPortReadError ∧
      (SerialPortConnection.read ctx now port maxSize).2.1.ok = false) ∧
    ((rp.getNextEventT "tx" ((freshEvent "tx" true now).setData bytes).eventId).1 = none →
      (SerialPortConnection.write ctx now port bytes).1 = -1 ∧
      (SerialPortConnection.write ctx now port bytes).2.1.get "len" = "-1" ∧
      (SerialPortConnection.write ctx now port bytes).2.1.get "error"
        = qNumber QSerialPortReadError ∧
      (SerialPortConnection.write ctx now port bytes).2.1.ok = false) ∧
    (ctx.conn.opened = false →
      (rp.getNextEventT "openConnection" ctx.conn.name).1 = none →
      (SerialPortConnection.doOpen ctx now port).1 = false ∧
      ((SerialPortConnection.doOpen ctx now port).2.1.map (fun ev => ev.get "error"))
        = some (qNumber QSerialPortDeviceNotFoundError) ∧
      ((SerialPortConnection.doOpen ctx now port).2.1.map XmlReplayEvent.ok) = some false) ∧
    ((rp.getNextEventT "closeConnection" ctx.conn.name).1 = none →
      (SerialPortConnection.close ctx now port).1.get "error"
        = qNumber QSerialPortResourceError ∧
      (SerialPortConnection.close ctx now port).1.ok = false) := by
  obtain ⟨conn, rec, rep⟩ := ctx
  simp only at hrp
  subst hrp
  refine ⟨?_, ?_, ?_, ?_⟩
  · intro hex2
    have hpair : rp.getNextEventT "rx" "" = (none, (rp.getNextEventT "rx" "").2) := by
      rw [← hex2]
    simp only [SerialPortConnection.read]
    rw [show (freshEvent "rx" true now).eventId = "" from rfl]
    rw [hpair]
    exact ⟨rfl, rfl, rfl, rfl⟩
  · intro hex2
    have hpair : rp.getNextEventT "tx" ((freshEvent "tx" true now).setData bytes).eventId
        = (none, (rp.getNextEventT "tx" ((freshEvent "tx" true now).setData bytes).eventId).2) := by
      rw [← hex2]
    simp only [SerialPortConnection.write]
    rw [hpair]
    exact ⟨rfl, rfl, rfl, rfl⟩
  · intro hopened hex2
    simp only at hopened hex2
    have hpair : rp.getNextEventT "openConnection" conn.name
        = (none, (rp.getNextEventT "openConnection" conn.name).2) := by
      rw [← hex2]
    simp only [SerialPortConnection.doOpen, hopened]
    rw [hpair]
    exact ⟨rfl, rfl, rfl⟩
  · intro hex2
    simp only at hex2
    have hpair : rp.getNextEventT "closeConnection" conn.name
        = (none, (rp.getNextEventT "closeConnection" conn.name).2) := by
      rw [← hex2]
    simp only [SerialPortConnection.close]
    rw [hpair]
    exact ⟨rfl, rfl⟩

/-- Witness for C2 against the empty replay index: every lookup exhausts
and each operation produces its documented fallback. -/
theorem c2_witness :
    ((XmlReplay.deserializeEvents 0 []).getNextEventT "rx" "").1 = none ∧
    (SerialPortConnection.read
      ⟨⟨"COM3", false⟩, none, some (XmlReplay.deserializeEvents 0 [])⟩ 0 default 1).1 = -1 ∧
    (SerialPortConnection.write
      ⟨⟨"COM3", false⟩, none, some (XmlReplay.deserializeEvents 0 [])⟩ 0 default [65]).1 = -1 ∧
    (SerialPortConnection.doOpen
      ⟨⟨"COM3", false⟩, none, some (XmlReplay.deserializeEvents 0 [])⟩ 0 default).1 = false ∧
    (SerialPortConnection.close
      ⟨⟨"COM3", false⟩, none, some (XmlReplay.deserializeEvents 0 [])⟩ 0 default).1.ok = false :=
  have h := c2_replay_exhaustion
    ⟨⟨"COM3", false⟩, none, some (XmlReplay.deserializeEvents 0 [])⟩
    (XmlReplay.deserializeEvents 0 []) 0 default 1 [65] rfl
  ⟨rfl, (h.1 rfl).1, (h.2.1 rfl).1, (h.2.2.1 rfl rfl).1, (h.2.2.2 rfl).2⟩

-- MARK: C6

/-- A key reported absent by assocContains is not among the stored keys. -/
theorem not_mem_keys_of_not_assocContains {α : Type} (l : List (String × α))
    (k : String) (h : assocContains l k = false) : k ∉ l.map (fun p => p.1) := by
  induction l with
  | nil => simp
  | cons p rest ih =>
    simp only [assocContains, Bool.or_eq_false_iff] at h
    simp only [List.map_cons, List.mem_cons]
    rintro (he | hm)
    · rw [he] at h
      simp at h
    · exact ih h.2 hm

/-- C6: openConnection fails and leaves the manager untouched when the type
is not registered; fails and leaves the manager untouched - in particular
the already-open connection under that name - when the name is already
open; fails, registering nothing, when the constructed connection's open
fails (only the recorder/replay side effects of the failed open attempt
persist); and otherwise registers the newly opened connection under its
name.  The open-connections map keys stay pairwise distinct, so at most one
open connection exists per name. -/
theorem c6_openConnection (mgr : DeviceConnectionManager)
    (reg : List (String × ConnFactory)) (type name : String) (now : Nat)
    (port : PortOracle) :
    (assocGet? reg type = none →
      DeviceConnectionManager.openConnection mgr reg type name now port = (none, mgr)) ∧
    (assocContains mgr.connections name = true →
      DeviceConnectionManager.openConnection mgr reg type name now port = (none, mgr)) ∧
    (∀ factory, assocGet? reg type = some factory →
      assocContains mgr.connections name = false →
      (SerialPortConnection.doOpen ⟨factory name, mgr.record, mgr.replay⟩ now port).1 = false →
      (DeviceConnectionManager.openConnection mgr reg type name now port).1 = none ∧
      (DeviceConnectionManager.openConnection mgr reg type name now port).2.connections
        = mgr.connections) ∧
    (∀ factory, assocGet? reg type = some factory →
      assocContains mgr.connections name = false →
      (SerialPortConnection.doOpen ⟨factory name, mgr.record, mgr.replay⟩ now port).1 = true →
      (DeviceConnectionManager.openConnection mgr reg type name now port).1
        = some (SerialPortConnection.doOpen ⟨factory name, mgr.record, mgr.replay⟩ now port).2.2.conn ∧
      (DeviceConnectionManager.openConnection mgr reg type name now port).2.connections
        = mgr.connections
          ++ [(name, (SerialPortConnection.doOpen ⟨factory name, mgr.record, mgr.replay⟩ now port).2.2.conn)]) ∧
    ((mgr.connections.map (fun p => p.1)).Nodup →
      ((DeviceConnectionManager.openConnection mgr reg type name now port).2.connections.map
        (fun p => p.1)).Nodup) := by
  refine ⟨?_, ?_, ?_, ?_, ?_⟩
  · intro hreg
    simp only [DeviceConnectionManager.openConnection, hreg]
  · intro hconn
    cases hreg : assocGet? reg type with
    | none => simp only [DeviceConnectionManager.openConnection, hreg]
    | some factory =>
      simp only [DeviceConnectionManager.openConnection, hreg, hconn]
      simp
  · intro factory hreg hconn hok
    have hpair3 : SerialPortConnection.doOpen ⟨factory name, mgr.record, mgr.replay⟩ now port
        = ((SerialPortConnection.doOpen ⟨factory name, mgr.record, mgr.replay⟩ now port).1,
           (SerialPortConnection.doOpen ⟨factory name, mgr.record, mgr.replay⟩ now port).2.1,
           (SerialPortConnection.doOpen ⟨factory name, mgr.record, mgr.replay⟩ now port).2.2) := rfl
    simp only [DeviceConnectionManager.openConnection, hreg, hconn]
    rw [hpair3, hok]
    simp
  · intro factory hreg hconn hok
    have hpair3 : SerialPortConnection.doOpen ⟨factory name, mgr.record, mgr.replay⟩ now port
        = ((SerialPortConnection.doOpen ⟨factory name, mgr.record, mgr.replay⟩ now port).1,
           (SerialPortConnection.doOpen ⟨factory name, mgr.record, mgr.replay⟩ now port).2.1,
           (SerialPortConnection.doOpen ⟨factory name, mgr.record, mgr.replay⟩ now port).2.2) := rfl
    simp only [DeviceConnectionManager.openConnection, hreg, hconn]
    rw [hpair3, hok]
    simp
  · intro hnodup
    cases hreg : assocGet? reg type with
    | none =>
      simp only [DeviceConnectionManager.openConnection, hreg]
      exact hnodup
    | some factory =>
      cases hconn : assocContains mgr.connections name with
      | true =>
        simp only [DeviceConnectionManager.openConnection, hreg, hconn]
        simpa using hnodup
      | false =>
        have hmem := not_mem_keys_of_not_assocContains mgr.connections name hconn
        have hpair3 : SerialPortConnection.doOpen ⟨factory name, mgr.record, mgr.replay⟩ now port
            = ((SerialPortConnection.doOpen ⟨factory name, mgr.record, mgr.replay⟩ now port).1,
               (SerialPortConnection.doOpen ⟨factory name, mgr.record, mgr.replay⟩ now port).2.1,
               (SerialPortConnection.doOpen ⟨factory name, mgr.record, mgr.replay⟩ now port).2.2) := rfl
        simp only [DeviceConnectionManager.openConnection, hreg, hconn]
        rw [hpair3]
        cases hok : (SerialPortConnection.doOpen ⟨factory name, mgr.record, mgr.replay⟩ now port).1 with
        | false => simpa using hnodup
        | true =>
          simp only [if_true]
          simp [List.nodup_append, hnodup, hmem]

/-- Witness for C6: against the single-entry serial registry, an unknown
type fails unchanged; a duplicate name fails unchanged; a successful live
open registers the connection under its name with distinct names
preserved. -/
theorem c6_witness :
    DeviceConnectionManager.openConnection ⟨none, none, []⟩ connRegistry "usb" "COM3" 0
      ⟨true, 0, 0, [], 0⟩ = (none, ⟨none, none, []⟩) ∧
    DeviceConnectionManager.openConnection ⟨none, none, [("COM3", ⟨"COM3", true⟩)]⟩ connRegistry
      "serial" "COM3" 0 ⟨true, 0, 0, [], 0⟩ = (none, ⟨none, none, [("COM3", ⟨"COM3", true⟩)]⟩) ∧
    (DeviceConnectionManager.openConnection ⟨none, none, []⟩ connRegistry "serial" "COM3" 0
      ⟨true, 0, 0, [], 0⟩).2.connections = [("COM3", ⟨"COM3", true⟩)] ∧
    ((DeviceConnectionManager.openConnection ⟨none, none, []⟩ connRegistry "serial" "COM3" 0
      ⟨true, 0, 0, [], 0⟩).2.connections.map (fun p => p.1)).Nodup :=
  have h1 := (c6_openConnection ⟨none, none, []⟩ connRegistry "usb" "COM3" 0 ⟨true, 0, 0, [], 0⟩).1 rfl
  have h2 := (c6_openConnection ⟨none, none, [("COM3", ⟨"COM3", true⟩)]⟩ connRegistry "serial" "COM3"
    0 ⟨true, 0, 0, [], 0⟩).2.1 rfl
  have h4 := (c6_openConnection ⟨none, none, []⟩ connRegistry "serial" "COM3" 0
    ⟨true, 0, 0, [], 0⟩).2.2.2.1 serialPortFactory rfl rfl rfl
  have h5 := (c6_openConnection ⟨none, none, []⟩ connRegistry "serial" "COM3" 0
    ⟨true, 0, 0, [], 0⟩).2.2.2.2 (by decide)
  ⟨h1, h2, h4.2.trans (by decide), h5⟩


-- MARK: C1 - index lemmas

/-- contains agrees with the success of lookup. -/
theorem assocContains_eq_isSome {α : Type} (l : List (String × α)) (k : String) :
    assocContains l k = (assocGet? l k).isSome := by
  induction l with
  | nil => rfl
  | cons p rest ih =>
    by_cases hp : p.1 = k
    · simp [assocContains, assocGet?, hp]
    · simp [assocContains, assocGet?, hp, ih]


/-- Lookup after an in-place nested-hash update. -/
theorem assocGet?_assocUpdate {α : Type} (h : List (String × α)) (k q : String)
    (f : α → α) (d : α) :
    assocGet? (assocUpdate h k f d) q
      = if q = k then some (f ((assocGet? h k).getD d)) else assocGet? h q := by
  induction h with
  | nil =>
    by_cases hq : q = k
    · subst hq; simp [assocUpdate, assocGet?]
    · have hkq : ¬ (k = q) := fun e => hq e.symm
      simp [assocUpdate, assocGet?, hq, hkq]
  | cons p rest ih =>
    by_cases hp : p.1 = k
    · subst hp
      by_cases hq : q = p.1
      · subst hq; simp [assocUpdate, assocGet?]
      · have hqp : ¬ (p.1 = q) := fun e => hq e.symm
        simp [assocUpdate, assocGet?, hq, hqp]
    · by_cases hq : q = k
      · subst hq
        have hpq : ¬ (p.1 = q) := hp
        simp [assocUpdate, assocGet?, hp, hpq, ih]
      · by_cases hpq : p.1 = q
        · subst hpq
          simp [assocUpdate, assocGet?, hp, hq]
        · simp [assocUpdate, assocGet?, hp, hq, hpq, ih]

/-- The popped element of getNextEvent is the head of the requested FIFO
queue. -/
theorem indexPop_fst (idx : List (String × List (String × List Nat))) (t i : String) :
    (indexPop idx t i).1 = (XmlReplay.bucket ⟨[], idx⟩ t i).head? := by
  unfold indexPop XmlReplay.bucket
  cases h1 : assocGet? idx t with
  | none => simp [assocContains_eq_isSome, assocGet?, h1]
  | some ids =>
    cases h2 : assocGet? ids i with
    | none => simp [assocContains_eq_isSome, assocGet?, h1, h2]
    | some l =>
      cases l with
      | nil => simp [assocContains_eq_isSome, assocGet?, h1, h2]
      | cons p rest => simp [assocContains_eq_isSome, assocGet?, h1, h2]

/-- After getNextEvent, the requested queue lost its head. -/
theorem indexPop_bucket_same (idx : List (String × List (String × List Nat))) (t i : String) :
    XmlReplay.bucket ⟨[], (indexPop idx t i).2⟩ t i
      = (XmlReplay.bucket ⟨[], idx⟩ t i).tail := by
  unfold indexPop XmlReplay.bucket
  cases h1 : assocGet? idx t with
  | none => simp [assocContains_eq_isSome, assocGet?, h1]
  | some ids =>
    cases h2 : assocGet? ids i with
    | none => simp [assocContains_eq_isSome, assocGet?, h1, h2]
    | some l =>
      cases l with
      | nil => simp [assocContains_eq_isSome, assocGet?, h1, h2]
      | cons p rest =>
        simp [assocContains_eq_isSome, h1, h2, assocGet?_assocUpdate]

/-- getNextEvent leaves every other queue untouched. -/
theorem indexPop_bucket_other (idx : List (String × List (String × List Nat)))
    (t i t2 i2 : String) (hne : ¬ (t2 = t ∧ i2 = i)) :
    XmlReplay.bucket ⟨[], (indexPop idx t i).2⟩ t2 i2
      = XmlReplay.bucket ⟨[], idx⟩ t2 i2 := by
  unfold indexPop XmlReplay.bucket
  cases h1 : assocGet? idx t with
  | none => simp [assocContains_eq_isSome, assocGet?, h1]
  | some ids =>
    cases h2 : assocGet? ids i with
    | none => simp [assocContains_eq_isSome, assocGet?, h1, h2]
    | some l =>
      cases l with
      | nil => simp [assocContains_eq_isSome, assocGet?, h1, h2]
      | cons p rest =>
        by_cases ht : t2 = t
        · have hi : ¬ (i2 = i) := fun hh => hne ⟨ht, hh⟩
          subst ht
          simp [assocContains_eq_isSome, h1, h2, assocGet?_assocUpdate, hi]
        · simp [assocContains_eq_isSome, h1, h2, assocGet?_assocUpdate, ht]

/-- Appending a position extends exactly the requested queue. -/
theorem bucket_indexAdd_same (idx : List (String × List (String × List Nat)))
    (t i : String) (pos : Nat) :
    XmlReplay.bucket ⟨[], indexAdd idx t i pos⟩ t i
      = XmlReplay.bucket ⟨[], idx⟩ t i ++ [pos] := by
  unfold indexAdd XmlReplay.bucket
  cases h1 : assocGet? idx t with
  | none => simp [assocGet?_assocUpdate, assocGet?, h1]
  | some ids =>
    cases h2 : assocGet? ids i with
    | none => simp [assocGet?_assocUpdate, assocGet?, h1, h2]
    | some l => simp [assocGet?_assocUpdate, assocGet?, h1, h2]

/-- Appending a position leaves every other queue untouched. -/
theorem bucket_indexAdd_other (idx : List (String × List (String × List Nat)))
    (t i t2 i2 : String) (pos : Nat) (hne : ¬ (t2 = t ∧ i2 = i)) :
    XmlReplay.bucket ⟨[], indexAdd idx t i pos⟩ t2 i2
      = XmlReplay.bucket ⟨[], idx⟩ t2 i2 := by
  unfold indexAdd XmlReplay.bucket
  by_cases ht : t2 = t
  · have hi : ¬ (i2 = i) := fun hh => hne ⟨ht, hh⟩
    have hi2 : ¬ (i = i2) := fun hh => hi hh.symm
    subst ht
    cases h1 : assocGet? idx t2 with
    | none => simp [assocGet?_assocUpdate, assocGet?, h1, hi, hi2]
    | some ids => simp [assocGet?_assocUpdate, assocGet?, h1, hi, hi2]
  · simp [assocGet?_assocUpdate, ht]

-- MARK: C1 - parse lemmas

/-- Parsing an element never changes the event's discriminator. -/
theorem readXml_tag (e : XmlReplayEvent) (w : WireElement) :
    (e.readXml w).tag = e.tag := by
  unfold XmlReplayEvent.readXml
  by_cases h : e.tag = "getAvailableSerialPorts"
  · simp [h]
  · rw [if_neg h]
    show (if (setAll e w.attrs).usesData = true
          then { setAll e w.attrs with data := w.text }
          else setAll e w.attrs).tag = e.tag
    by_cases hu : (setAll e w.attrs).usesData = true
    · rw [if_pos hu]
      exact (setAll_preserves w.attrs e).1
    · rw [if_neg hu]
      exact (setAll_preserves w.attrs e).1

/-- Every factory the registry stores constructs events carrying its own
registration tag. -/
theorem assocGet_tag_sound (l : List (String × EventFactory))
    (hl : ∀ p ∈ l, ∀ now, ((p.2 : EventFactory) now).tag = p.1) :
    ∀ tag f, assocGet? l tag = some f → ∀ now, (f now).tag = tag := by
  induction l with
  | nil => intro tag f h; simp [assocGet?] at h
  | cons p rest ih =>
    intro tag f h now
    by_cases hp : p.1 = tag
    · simp only [assocGet?, if_pos hp] at h
      injection h with he
      subst he
      rw [← hp]
      exact hl p (by simp) now
    · simp only [assocGet?, if_neg hp] at h
      exact ih (fun x hx => hl x (List.mem_cons_of_mem _ hx)) tag f h now

/-- The startup event registry satisfies the factory-tag contract. -/
theorem eventRegistry_entries :
    ∀ p ∈ eventRegistry, ∀ now, ((p.2 : EventFactory) now).tag = p.1 := by
  intro p hp now
  have hlit : eventRegistry =
      [("getAvailableSerialPorts", mkEvent "getAvailableSerialPorts" false),
       ("TBD", mkEvent "TBD" false),
       ("set", mkEvent "set" false),
       ("get", mkEvent "get" false),
       ("openConnection", mkEvent "openConnection" false),
       ("closeConnection", mkEvent "closeConnection" false),
       ("clear", mkEvent "clear" false),
       ("flush", mkEvent "flush" false),
       ("rx", mkEvent "rx" true),
       ("tx", mkEvent "tx" true)] := rfl
  rw [hlit] at hp
  simp only [List.mem_cons, List.not_mem_nil, or_false] at hp
  rcases hp with rfl | rfl | rfl | rfl | rfl | rfl | rfl | rfl | rfl | rfl <;> rfl

/-- createInstance hands back an event tagged with the requested tag, and it
stays so after parsing. -/
theorem createInstance_tag (now : Nat) (tag : String) (e0 : XmlReplayEvent)
    (h : createInstance now tag = some e0) : e0.tag = tag := by
  unfold createInstance at h
  cases hf : assocGet? eventRegistry tag with
  | none => rw [hf] at h; simp at h
  | some f =>
    rw [hf] at h
    simp only [Option.map_some'] at h
    injection h with he
    subst he
    exact assocGet_tag_sound eventRegistry eventRegistry_entries tag f hf now

-- MARK: C1 - build characterization

/-- The eager parse: folding deserializeEvents over a stream appends the
parsed events to the chronological list and appends each parsed event's
position to exactly the FIFO queue of its (discriminator, identity) key. -/
theorem deserialize_fold (now : Nat) (ws : List WireElement) (r : XmlReplay) :
    (List.foldl (addEvent now) r ws).events = r.events ++ parsedEvents now ws ∧
    (∀ t i, XmlReplay.bucket ⟨[], (List.foldl (addEvent now) r ws).eventIndex⟩ t i
      = XmlReplay.bucket ⟨[], r.eventIndex⟩ t i
        ++ keyPositions r.events.length (parsedEvents now ws) t i) := by
  induction ws generalizing r with
  | nil => simp [parsedEvents, keyPositions]
  | cons w rest ih =>
    cases hc : createInstance now w.tag with
    | none =>
      have hstep : addEvent now r w = r := by simp [addEvent, hc]
      have hparsed : parsedEvents now (w :: rest) = parsedEvents now rest := by
        simp [parsedEvents, hc]
      rw [List.foldl_cons, hstep, hparsed]
      exact ih r
    | some e0 =>
      have htag : (e0.readXml w).tag = w.tag := by
        rw [readXml_tag]
        exact createInstance_tag now w.tag e0 hc
      have hstep : addEvent now r w
          = ⟨r.events ++ [e0.readXml w],
             indexAdd r.eventIndex w.tag (e0.readXml w).eventId r.events.length⟩ := by
        simp [addEvent, hc]
      have hparsed : parsedEvents now (w :: rest) = e0.readXml w :: parsedEvents now rest := by
        simp [parsedEvents, hc]
      rw [List.foldl_cons, hstep, hparsed]
      obtain ⟨ihev, ihbuc⟩ := ih ⟨r.events ++ [e0.readXml w],
        indexAdd r.eventIndex w.tag (e0.readXml w).eventId r.events.length⟩
      constructor
      · rw [ihev]
        simp
      · intro t i
        rw [ihbuc t i]
        simp only [List.length_append, List.length_singleton]
        by_cases hm : (e0.readXml w).tag = t ∧ (e0.readXml w).eventId = i
        · have hw : w.tag = t := htag.symm.trans hm.1
          rw [keyPositions, if_pos hm]
          rw [hw]
          rw [hm.2]
          rw [bucket_indexAdd_same]
          simp
        · have hne : ¬ (t = w.tag ∧ i = (e0.readXml w).eventId) := by
            intro hx
            exact hm ⟨htag.trans hx.1.symm, hx.2.symm⟩
          rw [keyPositions, if_neg hm]
          rw [bucket_indexAdd_other _ _ _ _ _ _ hne]

-- MARK: C1 - position lemmas

/-- Positions collected from a later base are the base-0 positions
shifted. -/
theorem keyPositions_shift (evs : List XmlReplayEvent) (t i : String) (base : Nat) :
    keyPositions base evs t i = (keyPositions 0 evs t i).map (fun p => base + p) := by
  induction evs generalizing base with
  | nil => simp [keyPositions]
  | cons e rest ih =>
    by_cases hm : e.tag = t ∧ e.eventId = i
    · rw [keyPositions, if_pos hm]
      conv_rhs => rw [keyPositions, if_pos hm]
      rw [ih (base + 1), ih 1]
      simp only [List.map_cons, List.map_map]
      congr 1
      apply List.map_congr_left
      intro a _
      simp only [Function.comp]
      omega
    · rw [keyPositions, if_neg hm]
      conv_rhs => rw [keyPositions, if_neg hm]
      rw [ih (base + 1), ih 1]
      rw [List.map_map]
      apply List.map_congr_left
      intro a _
      simp only [Function.comp]
      omega

/-- Every collected position points at an event bearing the key. -/
theorem keyPositions_mem (evs : List XmlReplayEvent) (t i : String) (p : Nat)
    (h : p ∈ keyPositions 0 evs t i) :
    ∃ e, evs[p]? = some e ∧ e.tag = t ∧ e.eventId = i := by
  induction evs generalizing p with
  | nil => simp [keyPositions] at h
  | cons e rest ih =>
    by_cases hm : e.tag = t ∧ e.eventId = i
    · rw [keyPositions, if_pos hm, keyPositions_shift rest t i 1] at h
      rcases List.mem_cons.1 h with rfl | hmem
      · exact ⟨e, by simp, hm⟩
      · obtain ⟨q, hq, rfl⟩ := List.mem_map.1 hmem
        obtain ⟨e2, he2, hk⟩ := ih q hq
        refine ⟨e2, ?_, hk⟩
        rw [Nat.add_comm]
        simpa using he2
    · rw [keyPositions, if_neg hm, keyPositions_shift rest t i 1] at h
      obtain ⟨q, hq, rfl⟩ := List.mem_map.1 h
      obtain ⟨e2, he2, hk⟩ := ih q hq
      refine ⟨e2, ?_, hk⟩
      rw [Nat.add_comm]
      simpa using he2

/-- The collected positions are pairwise distinct. -/
theorem keyPositions_nodup (evs : List XmlReplayEvent) (t i : String) :
    (keyPositions 0 evs t i).Nodup := by
  induction evs with
  | nil => simp [keyPositions]
  | cons e rest ih =>
    have hinj : Function.Injective (fun p : Nat => 1 + p) := by
      intro a b hab
      simpa using hab
    by_cases hm : e.tag = t ∧ e.eventId = i
    · rw [keyPositions, if_pos hm, keyPositions_shift rest t i 1]
      refine List.Nodup.cons ?_ (ih.map hinj)
      intro hmem
      obtain ⟨q, _, hq⟩ := List.mem_map.1 hmem
      omega
    · rw [keyPositions, if_neg hm, keyPositions_shift rest t i 1]
      exact ih.map hinj

/-- Indexing the collected positions and reading the event list recovers
exactly the filtered sublist of events with the key, in order. -/
theorem keyPositions_getElem (evs : List XmlReplayEvent) (t i : String) (n : Nat) :
    ((keyPositions 0 evs t i)[n]?.bind (fun p => evs[p]?))
      = (matchesList evs t i)[n]? := by
  induction evs generalizing n with
  | nil => simp [keyPositions, matchesList]
  | cons e rest ih =>
    by_cases hm : e.tag = t ∧ e.eventId = i
    · rw [keyPositions, if_pos hm, keyPositions_shift rest t i 1]
      have hmatch : matchesList (e :: rest) t i = e :: matchesList rest t i := by
        simp [matchesList, List.filter_cons, hm]
      rw [hmatch]
      cases n with
      | zero => simp
      | succ m =>
        simp only [List.getElem?_cons_succ, List.getElem?_map]
        rw [← ih m]
        cases hk : (keyPositions 0 rest t i)[m]? with
        | none => simp [hk]
        | some p =>
          simp only [hk, Option.map_some', Option.bind_some]
          rw [Nat.add_comm]
          simp
    · rw [keyPositions, if_neg hm, keyPositions_shift rest t i 1]
      have hmatch : matchesList (e :: rest) t i = matchesList rest t i := by
        simp [matchesList, List.filter_cons, hm]
      rw [hmatch, ← ih n]
      rw [List.getElem?_map]
      cases hk : (keyPositions 0 rest t i)[n]? with
      | none => simp [hk]
      | some p =>
        simp only [Option.map_some', Option.bind_some]
        rw [Nat.add_comm]
        simp


-- MARK: C1 - session characterization


/-- The head of a list is its entry at position zero. -/
theorem head?_eq_getElem0 {α : Type} (l : List α) : l.head? = l[0]? := by
  cases l <;> simp

/-- Running a session of lookups against a replay whose queues are described
by L: the lookup at session position n, with key k, returns entry number
(count of earlier same-key lookups) of the queue L k - so per key the queue
is consumed strictly in FIFO order, regardless of how lookups for different
keys interleave. -/
theorem runLookups_spec (ks : List (String × String)) (r : XmlReplay)
    (L : String → String → List Nat)
    (hL : ∀ t i, XmlReplay.bucket ⟨[], r.eventIndex⟩ t i = L t i) :
    ∀ n k, ks[n]? = some k →
      (runLookups r ks)[n]?
        = some ((L k.1 k.2)[(ks.take n).countP (fun q => q = k)]?) := by
  induction ks generalizing r L with
  | nil =>
    intro n k hks
    simp at hks
  | cons k0 ks2 ih =>
    intro n k hks
    cases n with
    | zero =>
      simp only [List.getElem?_cons_zero] at hks
      injection hks with hks
      subst hks
      simp only [runLookups, List.getElem?_cons_zero, List.take_zero, List.countP_nil]
      rw [XmlReplay.getNextEvent, indexPop_fst, hL k0.1 k0.2, head?_eq_getElem0]
    | succ m =>
      simp only [List.getElem?_cons_succ] at hks
      have hL2 : ∀ t i, XmlReplay.bucket ⟨[], ((r.getNextEvent k0.1 k0.2).2).eventIndex⟩ t i
          = (fun t i => if t = k0.1 ∧ i = k0.2 then (L k0.1 k0.2).tail else L t i) t i := by
        intro t i
        by_cases h : t = k0.1 ∧ i = k0.2
        · obtain ⟨h1, h2⟩ := h
          subst h1
          subst h2
          show XmlReplay.bucket ⟨[], (indexPop r.eventIndex k0.1 k0.2).2⟩ k0.1 k0.2 = _
          rw [indexPop_bucket_same, hL k0.1 k0.2]
          simp
        · show XmlReplay.bucket ⟨[], (indexPop r.eventIndex k0.1 k0.2).2⟩ t i = _
          rw [indexPop_bucket_other _ _ _ _ _ h, hL t i]
          simp [h]
      have hrec : (runLookups ((r.getNextEvent k0.1 k0.2).2) ks2)[m]?
          = some ((if k.1 = k0.1 ∧ k.2 = k0.2 then (L k0.1 k0.2).tail else L k.1 k.2)[(ks2.take m).countP (fun q => q = k)]?) :=
        ih ((r.getNextEvent k0.1 k0.2).2)
          (fun t i => if t = k0.1 ∧ i = k0.2 then (L k0.1 k0.2).tail else L t i) hL2 m k hks
      simp only [runLookups, List.getElem?_cons_succ]
      rw [hrec, List.take_succ_cons]
      by_cases hk : k = k0
      · subst hk
        rw [if_pos ⟨rfl, rfl⟩]
        have hcount : (k :: List.take m ks2).countP (fun q => q = k)
            = (List.take m ks2).countP (fun q => q = k) + 1 := by
          rw [List.countP_cons]
          simp
        rw [hcount, ← List.drop_one, List.getElem?_drop]
        rw [Nat.add_comm 1 ((List.take m ks2).countP (fun q => q = k))]
      · have hcond : ¬ (k.1 = k0.1 ∧ k.2 = k0.2) := fun hx => hk (Prod.ext_iff.2 ⟨hx.1, hx.2⟩)
        rw [if_neg hcond]
        have hne : ¬ (k0 = k) := fun h => hk h.symm
        have hcount : (k0 :: List.take m ks2).countP (fun q => q = k)
            = (List.take m ks2).countP (fun q => q = k) := by
          rw [List.countP_cons]
          simp [hne]
        rw [hcount]

-- MARK: C1 - main theorem

/-- Among the first b session entries there are strictly more lookups for
the key at position a than among the first a, whenever a < b. -/
theorem countP_take_lt (ks : List (String × String)) (a b : Nat) (hab : a < b)
    (k : String × String) (ha : ks[a]? = some k) :
    (ks.take a).countP (fun q => q = k) < (ks.take b).countP (fun q => q = k) := by
  have h1 : ks.take (a + 1) = ks.take a ++ [k] := by
    rw [List.take_succ, ha]
    rfl
  have hb : ks.take b = ks.take (a + 1) ++ (ks.drop (a + 1)).take (b - (a + 1)) := by
    rw [← List.take_add]
    congr 1
    omega
  rw [hb, h1]
  simp [List.countP_append]

/-- C1: the replay index built from a recorded stream holds exactly the
parsed events, in order; for every session of lookups, the lookup at
session position n with key k returns the position of recorded event number
c of that key, where c counts the earlier same-key lookups - so the j-th
lookup for any fixed (discriminator, identity) returns the j-th recorded
event with that key, oldest first; indexing the positions reads back
exactly the filtered sublist of recorded events with that key; and a parsed
event (position), once consumed by a lookup, is never returned by any other
lookup of the session, whatever its key. -/
theorem c1_replay_fifo (now : Nat) (ws : List WireElement)
    (ks : List (String × String)) (n : Nat) (k : String × String)
    (hk : ks[n]? = some k) :
    (XmlReplay.deserializeEvents now ws).events = parsedEvents now ws ∧
    ((runLookups (XmlReplay.deserializeEvents now ws) ks)[n]?
        = some ((keyPositions 0 (parsedEvents now ws) k.1 k.2)[(ks.take n).countP (fun q => q = k)]?)) ∧
    (((keyPositions 0 (parsedEvents now ws) k.1 k.2)[(ks.take n).countP (fun q => q = k)]?).bind
        (fun p => (parsedEvents now ws)[p]?)
      = (matchesList (parsedEvents now ws) k.1 k.2)[(ks.take n).countP (fun q => q = k)]?) ∧
    (∀ m k2 p, ks[m]? = some k2 → m ≠ n →
      (runLookups (XmlReplay.deserializeEvents now ws) ks)[m]? = some (some p) →
      (runLookups (XmlReplay.deserializeEvents now ws) ks)[n]? = some (some p) → False) := by
  have hempty : ∀ t i, XmlReplay.bucket ⟨[], ([] : List (String × List (String × List Nat)))⟩ t i = [] := by
    intro t i
    rfl
  have hL : ∀ t i, XmlReplay.bucket ⟨[], (XmlReplay.deserializeEvents now ws).eventIndex⟩ t i
      = keyPositions 0 (parsedEvents now ws) t i := by
    intro t i
    have h := (deserialize_fold now ws ⟨[], []⟩).2 t i
    rw [hempty t i] at h
    simpa using h
  have hev : (XmlReplay.deserializeEvents now ws).events = parsedEvents now ws := by
    have h := (deserialize_fold now ws ⟨[], []⟩).1
    simpa using h
  refine ⟨hev, ?_, ?_, ?_⟩
  · exact runLookups_spec ks (XmlReplay.deserializeEvents now ws)
      (fun t i => keyPositions 0 (parsedEvents now ws) t i) hL n k hk
  · exact keyPositions_getElem (parsedEvents now ws) k.1 k.2 _
  · intro m k2 p hkm hmn hm hn
    have hsm := runLookups_spec ks (XmlReplay.deserializeEvents now ws)
      (fun t i => keyPositions 0 (parsedEvents now ws) t i) hL m k2 hkm
    have hsn := runLookups_spec ks (XmlReplay.deserializeEvents now ws)
      (fun t i => keyPositions 0 (parsedEvents now ws) t i) hL n k hk
    rw [hm] at hsm
    rw [hn] at hsn
    injection hsm with hsm
    injection hsn with hsn
    by_cases hkk : k2 = k
    · subst hkk
      have hcc : (ks.take m).countP (fun q => q = k2) ≠ (ks.take n).countP (fun q => q = k2) := by
        rcases Nat.lt_or_ge m n with hlt | hge
        · exact Nat.ne_of_lt (countP_take_lt ks m n hlt k2 hkm)
        · have hlt2 : n < m := Nat.lt_of_le_of_ne hge (fun e => hmn e.symm)
          exact (Nat.ne_of_lt (countP_take_lt ks n m hlt2 k2 hk)).symm
      have hcm : (ks.take m).countP (fun q => q = k2)
          < (keyPositions 0 (parsedEvents now ws) k2.1 k2.2).length := by
        rcases List.getElem?_eq_some.1 hsm.symm with ⟨hlen, _⟩
        exact hlen
      exact hcc (List.getElem?_inj hcm (keyPositions_nodup (parsedEvents now ws) k2.1 k2.2)
        (hsm.symm.trans hsn))
    · have hpm : p ∈ keyPositions 0 (parsedEvents now ws) k2.1 k2.2 :=
        List.getElem?_mem hsm.symm
      have hpn : p ∈ keyPositions 0 (parsedEvents now ws) k.1 k.2 :=
        List.getElem?_mem hsn.symm
      obtain ⟨e, he, ht, hi⟩ := keyPositions_mem _ _ _ _ hpm
      obtain ⟨e2, he2, ht2, hi2⟩ := keyPositions_mem _ _ _ _ hpn
      rw [he] at he2
      injection he2 with he2
      subst he2
      exact hkk (Prod.ext_iff.2 ⟨ht.symm.trans ht2, hi.symm.trans hi2⟩)

/-- Witness for C1 on a concrete recorded stream of two rx events and a
session of two rx lookups: the second lookup returns the second recorded
event (position 1). -/
theorem c1_witness :
    (XmlReplay.deserializeEvents 0
        [⟨"rx", [("time", "5"), ("len", "1")], "41", []⟩,
         ⟨"rx", [("time", "6"), ("len", "1")], "42", []⟩]).events.length = 2 ∧
    (runLookups (XmlReplay.deserializeEvents 0
        [⟨"rx", [("time", "5"), ("len", "1")], "41", []⟩,
         ⟨"rx", [("time", "6"), ("len", "1")], "42", []⟩])
      [("rx", ""), ("rx", "")])[1]? = some (some 1) :=
  have h := c1_replay_fifo 0
    [⟨"rx", [("time", "5"), ("len", "1")], "41", []⟩,
     ⟨"rx", [("time", "6"), ("len", "1")], "42", []⟩]
    [("rx", ""), ("rx", "")] 1 ("rx", "") rfl
  ⟨by decide, h.2.1.trans (by decide)⟩
